import Mathlib

/-!
Shallow embedding of the `wingui` repository's core: the `WideString`
UTF-16 buffer type (`src/wstring.rs`, `src/lib.rs`) and the `Library`
dynamic-library loader (`src/library.rs`).

Native strings are modelled as `List Char` (a Lean `Char` is exactly a
Unicode scalar value, matching a Rust `char`). UTF-16 code units are
modelled as `Nat` (all values produced are `< 0x10000`). OS entry points
(`LoadLibraryW`, `GetModuleHandleW`, `GetProcAddress`, `FreeLibrary`) are
modelled as an explicit oracle environment, and the effect of calling
them as an explicit trace of `OsCall` values.
-/

namespace WinGui

/-- UTF-16 code units of one scalar value, as produced per character by
`OsStr::encode_wide` / `char::encode_utf16` on Windows: a BMP scalar is
one unit, a supplementary scalar is a surrogate pair. -/
def encodeChar (c : Char) : List Nat :=
  if c.toNat < 0x10000 then [c.toNat]
  else [0xD800 + (c.toNat - 0x10000) / 0x400, 0xDC00 + (c.toNat - 0x10000) % 0x400]

/-- UTF-16 encoding of a native string (`OsStr::new(text).encode_wide()`
for a valid `&str`). -/
def utf16Encode : List Char → List Nat
  | [] => []
  | c :: cs => encodeChar c ++ utf16Encode cs

/-- `get_wide_string` from `src/lib.rs`: transcode to UTF-16 and append
the `0` terminator (`.chain(std::iter::once(0)).collect()`). -/
def get_wide_string (text : List Char) : List Nat :=
  utf16Encode text ++ [0]

/-- The Unicode replacement character `U+FFFD` used by
`String::from_utf16_lossy` for unpaired surrogates. -/
def repChar : Char := Char.ofNat 0xFFFD

/-- Lossy UTF-16 decoding, mirroring `String::from_utf16_lossy`
(`char::decode_utf16` with `REPLACEMENT_CHARACTER` on errors): a
non-surrogate unit decodes directly; a high surrogate followed by a low
surrogate combines; any unpaired surrogate becomes `repChar`, and after
a failed pair the second unit is retried as a fresh lead. -/
def utf16DecodeLossy : List Nat → List Char
  | [] => []
  | [u] =>
    if u < 0xD800 ∨ 0xDFFF < u then [Char.ofNat u] else [repChar]
  | u :: v :: rest =>
    if u < 0xD800 ∨ 0xDFFF < u then
      Char.ofNat u :: utf16DecodeLossy (v :: rest)
    else if u ≤ 0xDBFF ∧ 0xDC00 ≤ v ∧ v ≤ 0xDFFF then
      Char.ofNat (0x10000 + (u - 0xD800) * 0x400 + (v - 0xDC00)) :: utf16DecodeLossy rest
    else
      repChar :: utf16DecodeLossy (v :: rest)

theorem char_valid_nat (c : Char) : c.toNat < 0xD800 ∨ (0xDFFF < c.toNat ∧ c.toNat < 0x110000) :=
  c.valid

theorem char_not_surrogate (c : Char) : c.toNat < 0xD800 ∨ 0xDFFF < c.toNat := by
  rcases char_valid_nat c with h | h
  · exact Or.inl h
  · exact Or.inr h.1

theorem char_toNat_lt (c : Char) : c.toNat < 0x110000 := by
  rcases char_valid_nat c with h | h
  · omega
  · exact h.2

theorem char_ofNat_toNat (c : Char) : Char.ofNat c.toNat = c := by
  obtain ⟨⟨⟨n, hlt⟩⟩, hval⟩ := c
  have hv : n.isValidChar := hval
  apply Char.eq_of_val_eq
  show (Char.ofNat n).val = _
  rw [Char.ofNat, dif_pos hv]
  rfl

/-- Decoding the encoding of a single scalar, in front of any tail,
recovers the scalar. -/
theorem utf16DecodeLossy_encodeChar (c : Char) (t : List Nat) :
    utf16DecodeLossy (encodeChar c ++ t) = c :: utf16DecodeLossy t := by
  have hns := char_not_surrogate c
  have hlt := char_toNat_lt c
  by_cases hbmp : c.toNat < 0x10000
  · rw [encodeChar, if_pos hbmp]
    cases t with
    | nil =>
      simp only [List.cons_append, List.nil_append, utf16DecodeLossy, if_pos hns,
        char_ofNat_toNat]
    | cons v rest =>
      simp only [List.cons_append, List.nil_append, utf16DecodeLossy, if_pos hns,
        char_ofNat_toNat]
  · rw [encodeChar, if_neg hbmp]
    have hq : (c.toNat - 0x10000) / 0x400 < 0x400 := by omega
    have hr : (c.toNat - 0x10000) % 0x400 < 0x400 := by omega
    simp only [List.cons_append, List.nil_append, utf16DecodeLossy]
    rw [if_neg (by omega), if_pos (by omega)]
    have harg : 0x10000 + (0xD800 + (c.toNat - 0x10000) / 0x400 - 0xD800) * 0x400 +
        (0xDC00 + (c.toNat - 0x10000) % 0x400 - 0xDC00) = c.toNat := by omega
    rw [harg, char_ofNat_toNat]
    rfl

/-- Decoding an encoded string followed by any tail splits cleanly. -/
theorem utf16DecodeLossy_encode_append (s : List Char) (t : List Nat) :
    utf16DecodeLossy (utf16Encode s ++ t) = s ++ utf16DecodeLossy t := by
  induction s with
  | nil => rfl
  | cons c cs ih =>
    rw [utf16Encode, List.append_assoc, utf16DecodeLossy_encodeChar, ih]
    rfl

/-- Lossy decoding is a left inverse of UTF-16 encoding on valid strings. -/
theorem utf16_roundtrip (s : List Char) : utf16DecodeLossy (utf16Encode s) = s := by
  have h := utf16DecodeLossy_encode_append s []
  rwa [List.append_nil, utf16DecodeLossy, List.append_nil] at h

/-- `WideString` from `src/wstring.rs`: `pub bytes: Vec<u16>`. -/
structure WideString where
  bytes : List Nat
  deriving DecidableEq

/-- `impl From<&str> for WideString`: `bytes: get_wide_string(text)`. -/
def WideString.fromStr (text : List Char) : WideString :=
  ⟨get_wide_string text⟩

/-- `impl Default for WideString`: `bytes: vec![0_u16]`. -/
def WideString.defaultVal : WideString := ⟨[0]⟩

/-- `WideString::empty()`: `bytes: vec![]`. -/
def WideString.empty : WideString := ⟨[]⟩

/-- `Vec::resize(n, 0)` on a `Vec<u16>`: truncate when `n` is at most the
length, otherwise pad with zeroes up to length `n`. -/
def listResize (l : List Nat) (n : Nat) : List Nat :=
  if n ≤ l.length then l.take n else l ++ List.replicate (n - l.length) 0

/-- `WideString::with_size(size)`: the `Default` value when `size == 0`,
otherwise a fresh vector resized to `size` zeroes. -/
def WideString.with_size (size : Nat) : WideString :=
  if size = 0 then WideString.defaultVal else ⟨listResize [] size⟩

/-- `WideString::from_str_with_size(text, size)`:
`get_wide_string(text)` followed by `vec.resize(size, 0)`. -/
def WideString.from_str_with_size (text : List Char) (size : Nat) : WideString :=
  ⟨listResize (get_wide_string text) size⟩

/-- `WideString::push_wide(&mut self, other)`: when `other.bytes` is
non-empty, pop the last element of `self.bytes` (`Vec::pop`, a no-op on
an empty vector, modelled by `dropLast`) and extend with `other.bytes`;
otherwise do nothing. Modelled functionally, returning the new value. -/
def WideString.push_wide (a other : WideString) : WideString :=
  if 0 < other.bytes.length then ⟨a.bytes.dropLast ++ other.bytes⟩ else a

/-- `impl fmt::Display for WideString`:
`String::from_utf16_lossy(&self.bytes[..self.bytes.len() - 1])`.
When `bytes` is empty, `bytes.len() - 1` underflows and the slice index
panics; the `none` branch models that panic. -/
def WideString.display (w : WideString) : Option (List Char) :=
  if w.bytes.length = 0 then none
  else some (utf16DecodeLossy (w.bytes.take (w.bytes.length - 1)))

/-- Scanning forward from a pointer for the first `0` unit (the
`(0..).take_while(|&i| *ptr.offset(i) != 0).count()` idiom applied to
the storage behind `WideString::ptr()`): the offset of the first zero. -/
def nullScan (l : List Nat) : Nat :=
  (l.takeWhile (fun u => u != 0)).length

/-- `LibType` from `src/library.rs`. -/
inductive LibType
  | Static
  | Dynamic
  deriving DecidableEq

/-- `Library` from `src/library.rs`: a raw module handle (`Nat`, with
`0` as the null handle) and its classification. -/
structure Library where
  handle : Nat
  lib_type : LibType
  deriving DecidableEq

/-- An OS loader call issued by the code; only the unload call matters
to the claims. -/
inductive OsCall
  | freeLibrary (handle : Nat)
  deriving DecidableEq

/-- Oracle for the OS loader entry points: `LoadLibraryW` and
`GetModuleHandleW` keyed by the wide path (result `0` models a null
handle), `GetProcAddress` keyed by handle and symbol name (the name
stands for the bytes of the `CString` built from it). -/
structure LoaderEnv where
  loadLibraryW : List Nat → Nat
  getModuleHandleW : List Nat → Nat
  getProcAddress : Nat → List Char → Option Nat

/-- The error kinds surfaced by `Library` constructors. -/
inductive LibError
  | invalidInput
  | osError
  deriving DecidableEq

/-- `Library::load(path)`: call `LoadLibraryW(get_wide_string(path))`;
a null handle fails with the last OS error, otherwise the handle is
stored with classification `Dynamic`. -/
def Library.load (env : LoaderEnv) (path : List Char) : Except LibError Library :=
  let handle := env.loadLibraryW (get_wide_string path)
  if handle = 0 then .error .osError
  else .ok ⟨handle, .Dynamic⟩

/-- `Library::get_static_lib(path)`: call
`GetModuleHandleW(get_wide_string(path))`; fail with `InvalidInput` when
the handle is null or the path is empty, otherwise store the handle with
classification `Static`. -/
def Library.get_static_lib (env : LoaderEnv) (path : List Char) : Except LibError Library :=
  let handle := env.getModuleHandleW (get_wide_string path)
  if handle = 0 ∨ path.length = 0 then .error .invalidInput
  else .ok ⟨handle, .Static⟩

/-- The OS calls issued by `impl Drop for Library`: `FreeLibrary` on a
`Dynamic` library, nothing on a `Static` one. -/
def Library.dropEffects (lib : Library) : List OsCall :=
  match lib.lib_type with
  | .Dynamic => [.freeLibrary lib.handle]
  | .Static => []

/-- The OS calls issued by `Library::free_lib(&self)`: the body is
`FreeLibrary(self.handle) != 0`, an unconditional call — note that it
does not inspect `self.lib_type`. -/
def Library.free_lib_effects (lib : Library) : List OsCall :=
  [.freeLibrary lib.handle]

/-- `FnWrapper<F>` from `src/library.rs`: an optional procedure
address (the typed reinterpretation is identity on the address). -/
structure FnWrapper where
  fn : Option Nat
  deriving DecidableEq

/-- `FnWrapper::is_valid`. -/
def FnWrapper.is_valid (f : FnWrapper) : Bool :=
  f.fn.isSome

/-- `CString::new(name)` fails exactly when `name` contains a null
byte; for a valid `&str` that happens exactly when the character `0`
occurs in it. -/
def hasNullChar (name : List Char) : Bool :=
  name.contains (Char.ofNat 0)

/-- `Library::load_func(&self, name)`: when `CString::new(name)` fails
(null byte in the name) the wrapper is empty; otherwise it holds
whatever `GetProcAddress(self.handle, name)` resolves to (null becomes
`none` through the `Option` reinterpretation). -/
def Library.load_func (env : LoaderEnv) (lib : Library) (name : List Char) : FnWrapper :=
  if hasNullChar name then ⟨none⟩
  else ⟨env.getProcAddress lib.handle name⟩

theorem char_toNat_inj {c d : Char} (h : c.toNat = d.toNat) : c = d := by
  rw [← char_ofNat_toNat c, h, char_ofNat_toNat]

theorem zero_not_mem_utf16Encode {s : List Char} (h : Char.ofNat 0 ∉ s) :
    0 ∉ utf16Encode s := by
  induction s with
  | nil => simp [utf16Encode]
  | cons c cs ih =>
    rw [utf16Encode]
    intro hmem
    rcases List.mem_append.1 hmem with hm | hm
    · rw [encodeChar] at hm
      by_cases hbmp : c.toNat < 0x10000
      · rw [if_pos hbmp] at hm
        simp only [List.mem_singleton] at hm
        have hc : c = Char.ofNat 0 := char_toNat_inj (by rw [← hm]; rfl)
        exact h (by rw [← hc]; exact List.mem_cons_self c cs)
      · rw [if_neg hbmp] at hm
        rcases List.mem_cons.1 hm with h1 | h1
        · omega
        · rcases List.mem_singleton.1 h1 with h2
          omega
    · exact ih (fun hc => h (List.mem_cons_of_mem _ hc)) hm

theorem takeWhile_append_of_all {p : Nat → Bool} (l₁ l₂ : List Nat)
    (h : ∀ x ∈ l₁, p x = true) :
    (l₁ ++ l₂).takeWhile p = l₁ ++ l₂.takeWhile p := by
  induction l₁ with
  | nil => simp
  | cons a l ih =>
    rw [List.cons_append, List.takeWhile_cons, h a (List.mem_cons_self a l),
      ih (fun x hx => h x (List.mem_cons_of_mem _ hx))]
    rfl

/-- Claim C1: for every valid native string `s`, transcoding it with
`WideString::from` and decoding back with `Display` yields `s` exactly. -/
theorem from_native_to_string_roundtrip (s : List Char) :
    (WideString.fromStr s).display = some s := by
  show WideString.display ⟨utf16Encode s ++ [0]⟩ = some s
  rw [WideString.display]
  have hlen : (utf16Encode s ++ [0]).length - 1 = (utf16Encode s).length := by simp
  rw [if_neg (by simp), hlen, List.take_left, utf16_roundtrip]

/-- Claim C10: `Display` on a zero-length buffer (as produced by
`WideString::empty()`) hits the underflowing slice index and panics
(modelled by `none`); on every buffer with at least one element it
succeeds. -/
theorem display_partial_on_empty :
    WideString.empty.display = none ∧
    ∀ w : WideString, w.bytes ≠ [] → (w.display).isSome = true := by
  refine ⟨rfl, ?_⟩
  intro w hw
  rw [WideString.display, if_neg (by simpa using hw)]
  rfl

theorem display_partial_on_empty_witness :
    ((WideString.mk [0]).display).isSome = true :=
  display_partial_on_empty.2 ⟨[0]⟩ (by decide)

/-- Claim C9: `with_size(n)` yields `n` zero code units for `n > 0`,
and `with_size(0)` is the one-element `[0]` buffer, identical to the
`Default` value. -/
theorem with_size_spec :
    (∀ n, 0 < n → (WideString.with_size n).bytes = List.replicate n 0) ∧
    WideString.with_size 0 = WideString.defaultVal ∧
    WideString.defaultVal.bytes = [0] := by
  refine ⟨?_, rfl, rfl⟩
  intro n hn
  rw [WideString.with_size, if_neg (by omega)]
  show listResize [] n = _
  rw [listResize, if_neg (by simp only [List.length_nil]; omega)]
  simp

theorem with_size_spec_witness :
    (WideString.with_size 3).bytes = List.replicate 3 0 :=
  with_size_spec.1 3 (by decide)

/-- Claim C2: dropping a `Library` issues `FreeLibrary` exactly once
when its classification is `Dynamic` and performs no call when it is
`Static`; libraries created by `load` are `Dynamic` (one unload on
drop) and libraries created by `get_static_lib` are `Static` (none). -/
theorem drop_unloads_exactly_for_dynamic (lib : Library) (env : LoaderEnv) (path : List Char) :
    (lib.lib_type = .Dynamic → lib.dropEffects = [.freeLibrary lib.handle]) ∧
    (lib.lib_type = .Static → lib.dropEffects = []) ∧
    (∀ l, Library.load env path = .ok l → l.dropEffects.length = 1) ∧
    (∀ l, Library.get_static_lib env path = .ok l → l.dropEffects.length = 0) := by
  refine ⟨?_, ?_, ?_, ?_⟩
  · intro h; rw [Library.dropEffects, h]
  · intro h; rw [Library.dropEffects, h]
  · intro l hl
    simp only [Library.load] at hl
    split at hl
    · cases hl
    · cases hl; rfl
  · intro l hl
    simp only [Library.get_static_lib] at hl
    split at hl
    · cases hl
    · cases hl; rfl

theorem drop_unloads_exactly_for_dynamic_witness :
    Library.dropEffects ⟨3, .Dynamic⟩ = [.freeLibrary 3] ∧
    Library.dropEffects ⟨3, .Static⟩ = [] :=
  ⟨(drop_unloads_exactly_for_dynamic ⟨3, .Dynamic⟩
      ⟨fun _ => 0, fun _ => 0, fun _ _ => none⟩ []).1 rfl,
   (drop_unloads_exactly_for_dynamic ⟨3, .Static⟩
      ⟨fun _ => 0, fun _ => 0, fun _ _ => none⟩ []).2.1 rfl⟩

/-- Claim C3: `load_func` is total: a name with a null byte yields an
empty `FnWrapper`, an unresolved export yields an empty `FnWrapper`,
and otherwise the wrapper holds the resolved address. -/
theorem load_func_total (env : LoaderEnv) (lib : Library) (name : List Char) :
    (hasNullChar name = true → Library.load_func env lib name = ⟨none⟩) ∧
    (hasNullChar name = false →
      Library.load_func env lib name = ⟨env.getProcAddress lib.handle name⟩) ∧
    (hasNullChar name = false → env.getProcAddress lib.handle name = none →
      (Library.load_func env lib name).is_valid = false) ∧
    (∀ a, hasNullChar name = false → env.getProcAddress lib.handle name = some a →
      (Library.load_func env lib name).fn = some a) := by
  refine ⟨?_, ?_, ?_, ?_⟩
  · intro h; rw [Library.load_func, if_pos h]
  · intro h; rw [Library.load_func, if_neg (by simp [h])]
  · intro h hres
    rw [Library.load_func, if_neg (by simp [h])]
    rw [FnWrapper.is_valid, hres]
    rfl
  · intro a h hres
    rw [Library.load_func, if_neg (by simp [h])]
    exact hres

theorem load_func_total_witness :
    Library.load_func ⟨fun _ => 0, fun _ => 0, fun _ _ => some 77⟩
      ⟨2, .Dynamic⟩ [Char.ofNat 0] = ⟨none⟩ ∧
    (Library.load_func ⟨fun _ => 0, fun _ => 0, fun _ _ => some 77⟩
      ⟨2, .Dynamic⟩ [Char.ofNat 65]).fn = some 77 :=
  ⟨(load_func_total _ _ _).1 (by decide),
   (load_func_total _ _ _).2.2.2 77 (by decide) rfl⟩

/-- Claim C4 (code evidence): `free_lib` on a `Static` library still
issues the `FreeLibrary` unload call — its body never inspects
`lib_type` — contradicting the struct's own documentation ("This does
nothing if it's a static library"). -/
theorem free_lib_unloads_static_library :
    (⟨1, .Static⟩ : Library).lib_type = .Static ∧
    Library.free_lib_effects ⟨1, .Static⟩ = [.freeLibrary 1] :=
  ⟨rfl, rfl⟩

/-- Claim C5: `get_static_lib` fails with `InvalidInput` exactly when
the OS returns a null handle or the name is empty; otherwise it yields
a `Static` library; the empty name always fails. -/
theorem get_static_lib_spec (env : LoaderEnv) (path : List Char) :
    (env.getModuleHandleW (get_wide_string path) = 0 ∨ path = [] →
      Library.get_static_lib env path = .error .invalidInput) ∧
    (env.getModuleHandleW (get_wide_string path) ≠ 0 → path ≠ [] →
      Library.get_static_lib env path =
        .ok ⟨env.getModuleHandleW (get_wide_string path), .Static⟩) ∧
    Library.get_static_lib env [] = .error .invalidInput := by
  refine ⟨?_, ?_, ?_⟩
  · intro h
    simp only [Library.get_static_lib]
    rw [if_pos]
    rcases h with h | h
    · exact Or.inl h
    · exact Or.inr (by simp [h])
  · intro h1 h2
    simp only [Library.get_static_lib]
    rw [if_neg]
    push_neg
    exact ⟨h1, by simpa using h2⟩
  · simp [Library.get_static_lib]

theorem get_static_lib_spec_witness :
    Library.get_static_lib ⟨fun _ => 0, fun _ => 7, fun _ _ => none⟩
      [Char.ofNat 65] = .ok ⟨7, .Static⟩ ∧
    Library.get_static_lib ⟨fun _ => 0, fun _ => 0, fun _ _ => none⟩
      [Char.ofNat 65] = .error .invalidInput ∧
    Library.get_static_lib ⟨fun _ => 0, fun _ => 7, fun _ _ => none⟩ [] =
      .error .invalidInput :=
  ⟨(get_static_lib_spec _ _).2.1 (by decide) (by decide),
   (get_static_lib_spec _ _).1 (Or.inl rfl),
   (get_static_lib_spec ⟨fun _ => 0, fun _ => 7, fun _ _ => none⟩ []).2.2⟩

/-- Claim C6: for `n` beyond the transcoded length plus terminator,
`from_str_with_size` yields exactly `n` units with the terminator at
position `code_unit_length(s)` and zeroes from there through `n-1`
(stated as: the tail from that position is all zeroes); for `n` smaller
than the transcoded length the excess is dropped (truncation to `n`
code units). -/
theorem from_str_with_size_spec (s : List Char) (n : Nat) :
    ((utf16Encode s).length + 1 < n →
      (WideString.from_str_with_size s n).bytes.length = n ∧
      (WideString.from_str_with_size s n).bytes.drop (utf16Encode s).length =
        List.replicate (n - (utf16Encode s).length) 0) ∧
    (n < (utf16Encode s).length + 1 →
      (WideString.from_str_with_size s n).bytes = (get_wide_string s).take n ∧
      (WideString.from_str_with_size s n).bytes.length = n) := by
  have hlen : (get_wide_string s).length = (utf16Encode s).length + 1 := by
    simp [get_wide_string]
  constructor
  · intro hn
    have hbytes : (WideString.from_str_with_size s n).bytes =
        utf16Encode s ++ (0 :: List.replicate (n - ((utf16Encode s).length + 1)) 0) := by
      show listResize (get_wide_string s) n = _
      rw [listResize, if_neg (by rw [hlen]; omega)]
      rw [hlen, get_wide_string, List.append_assoc, List.singleton_append]
    constructor
    · rw [hbytes]
      simp only [List.length_append, List.length_cons, List.length_replicate]
      omega
    · rw [hbytes, List.drop_left]
      have h2 : n - ((utf16Encode s).length + 1) + 1 = n - (utf16Encode s).length := by
        omega
      rw [← List.replicate_succ, h2]
  · intro hn
    have hb : (WideString.from_str_with_size s n).bytes = (get_wide_string s).take n := by
      show listResize (get_wide_string s) n = _
      rw [listResize, if_pos (by rw [hlen]; omega)]
    refine ⟨hb, ?_⟩
    rw [hb]
    simp only [List.length_take, hlen]
    omega

theorem from_str_with_size_spec_witness :
    (WideString.from_str_with_size [Char.ofNat 72] 5).bytes.length = 5 ∧
    (WideString.from_str_with_size [Char.ofNat 72] 5).bytes.drop 1 =
      List.replicate 4 0 ∧
    (WideString.from_str_with_size [Char.ofNat 72] 1).bytes = [72] :=
  ⟨((from_str_with_size_spec [Char.ofNat 72] 5).1 (by decide)).1,
   ((from_str_with_size_spec [Char.ofNat 72] 5).1 (by decide)).2,
   ((from_str_with_size_spec [Char.ofNat 72] 1).2 (by decide)).1⟩

/-- Claim C7 (counterexample): two non-empty, singly-terminated buffers
whose contents are a split surrogate pair: each decodes alone to the
replacement character, but after `push_wide` the pair joins and decodes
to one supplementary scalar, so the concatenation law fails. -/
theorem push_wide_concat_counterexample :
    (WideString.mk [0xD800, 0]).bytes ≠ [] ∧
    (WideString.mk [0xDC00, 0]).bytes ≠ [] ∧
    (WideString.mk [0xD800, 0]).display = some [repChar] ∧
    (WideString.mk [0xDC00, 0]).display = some [repChar] ∧
    ((WideString.mk [0xD800, 0]).push_wide (WideString.mk [0xDC00, 0])).display ≠
      some ([repChar] ++ [repChar]) := by
  decide

/-- Claim C7 (amended): for buffers built by `WideString::from` from
native strings `sa`, `sb`, pushing the second onto the first decodes to
the concatenation `sa ++ sb`; when neither string contains the null
character the result holds exactly one `0` unit, as its final element;
and `push_wide` with an empty buffer is a no-op. -/
theorem push_wide_concat_amended (sa sb : List Char) :
    ((WideString.fromStr sa).push_wide (WideString.fromStr sb)).display =
      some (sa ++ sb) ∧
    (Char.ofNat 0 ∉ sa → Char.ofNat 0 ∉ sb →
      ((WideString.fromStr sa).push_wide (WideString.fromStr sb)).bytes.count 0 = 1 ∧
      ((WideString.fromStr sa).push_wide (WideString.fromStr sb)).bytes.getLast? =
        some 0) ∧
    (∀ a : WideString, a.push_wide WideString.empty = a) := by
  have hbytes : ((WideString.fromStr sa).push_wide (WideString.fromStr sb)).bytes =
      utf16Encode sa ++ (utf16Encode sb ++ [0]) := by
    show (WideString.push_wide ⟨get_wide_string sa⟩ ⟨get_wide_string sb⟩).bytes = _
    rw [WideString.push_wide, if_pos (by simp [get_wide_string])]
    show (get_wide_string sa).dropLast ++ get_wide_string sb = _
    rw [get_wide_string, get_wide_string, List.dropLast_concat]
  refine ⟨?_, ?_, ?_⟩
  · rw [WideString.display, hbytes, if_neg (by simp)]
    have hl : (utf16Encode sa ++ (utf16Encode sb ++ [0])).length - 1 =
        (utf16Encode sa ++ utf16Encode sb).length := by simp
    rw [hl, ← List.append_assoc, List.take_left]
    rw [utf16DecodeLossy_encode_append, utf16_roundtrip]
  · intro ha hb
    constructor
    · rw [hbytes]
      have h1 : (utf16Encode sa).count 0 = 0 :=
        List.count_eq_zero.2 (zero_not_mem_utf16Encode ha)
      have h2 : (utf16Encode sb).count 0 = 0 :=
        List.count_eq_zero.2 (zero_not_mem_utf16Encode hb)
      simp [List.count_append, h1, h2]
    · rw [hbytes, ← List.append_assoc, List.getLast?_concat]
  · intro a
    rw [WideString.push_wide, if_neg (by simp [WideString.empty])]

theorem push_wide_concat_amended_witness :
    ((WideString.fromStr [Char.ofNat 72]).push_wide
        (WideString.fromStr [Char.ofNat 33])).display =
      some [Char.ofNat 72, Char.ofNat 33] ∧
    ((WideString.fromStr [Char.ofNat 72]).push_wide
        (WideString.fromStr [Char.ofNat 33])).bytes.count 0 = 1 ∧
    ((WideString.fromStr [Char.ofNat 72]).push_wide
        (WideString.fromStr [Char.ofNat 33])).bytes.getLast? = some 0 :=
  ⟨(push_wide_concat_amended [Char.ofNat 72] [Char.ofNat 33]).1,
   ((push_wide_concat_amended [Char.ofNat 72] [Char.ofNat 33]).2.1
      (by decide) (by decide)).1,
   ((push_wide_concat_amended [Char.ofNat 72] [Char.ofNat 33]).2.1
      (by decide) (by decide)).2⟩

/-- Claim C8 (counterexample): `with_size(2)` is the buffer `[0, 0]`;
scanning forward from its storage finds the first `0` at offset `0`,
not at offset `length - 1 = 1`. -/
theorem ptr_scan_counterexample :
    nullScan (WideString.with_size 2).bytes ≠
      (WideString.with_size 2).bytes.length - 1 := by
  decide

/-- Claim C8 (amended): for every buffer satisfying the stated
invariant — exactly one `0` unit, sitting as the final element — the
forward scan from `ptr()` finds the terminator at offset `length - 1`. -/
theorem ptr_scan_terminator (w : WideString)
    (hlast : w.bytes.getLast? = some 0) (hcount : w.bytes.count 0 = 1) :
    nullScan w.bytes = w.bytes.length - 1 := by
  have hne : w.bytes ≠ [] := by
    intro h
    rw [h] at hlast
    cases hlast
  have hgl : w.bytes.getLast hne = 0 := by
    rw [List.getLast?_eq_getLast w.bytes hne] at hlast
    exact Option.some.inj hlast
  have hsplit : w.bytes.dropLast ++ [0] = w.bytes := by
    rw [← hgl]
    exact List.dropLast_concat_getLast hne
  have hc0 : w.bytes.dropLast.count 0 = 0 := by
    have hc := hcount
    rw [← hsplit, List.count_append] at hc
    simpa using hc
  have hall : ∀ x ∈ w.bytes.dropLast, (x != 0) = true := by
    intro x hx
    have hx0 : x ≠ 0 := by
      intro h
      subst h
      exact (List.count_eq_zero.1 hc0) hx
    simpa using hx0
  rw [nullScan, ← hsplit, takeWhile_append_of_all _ _ hall]
  have ht : List.takeWhile (fun u => u != 0) [0] = [] := rfl
  rw [ht]
  simp

theorem ptr_scan_terminator_witness :
    nullScan (WideString.mk [65, 0]).bytes =
      (WideString.mk [65, 0]).bytes.length - 1 :=
  ptr_scan_terminator ⟨[65, 0]⟩ (by decide) (by decide)

end WinGui
